import Mathlib

/-!
Verification development for the Daily-Habits service (`src/main.py`).

The service stores habits and their completion events in a relational
store (SQLite) and exposes six operations: `add_habit`, `list_habits`,
`complete_habit`, `delete_habit`, `list_completions` and
`get_current_streak`, plus a process-wide one-time initialization guard.

The embedding below models the database state explicitly: the two tables
become two lists of rows, the SQLite `AUTOINCREMENT` id columns become
explicit counters, and each operation becomes a function from the state
(plus the clock inputs it reads) to the new state and its returned value.
-/

/-- A SQLite `TIMESTAMP` value: a calendar day (days relative to an epoch)
together with the time of day.  SQLite's `DATE(...)` truncation keeps the
`day` component and discards `tod`. -/
structure Timestamp where
  day : Int
  tod : Nat
deriving DecidableEq, Repr

/-- A row of the `habits` table:
`id INTEGER PRIMARY KEY AUTOINCREMENT, name TEXT NOT NULL, description TEXT,
created_at TIMESTAMP DEFAULT CURRENT_TIMESTAMP, is_active BOOLEAN DEFAULT 1`. -/
structure Habit where
  id : Int
  name : String
  description : String
  created_at : Timestamp
  is_active : Bool
deriving DecidableEq, Repr

/-- A row of the `habit_completions` table:
`id INTEGER PRIMARY KEY AUTOINCREMENT, habit_id INTEGER NOT NULL,
completion_date TIMESTAMP DEFAULT CURRENT_TIMESTAMP,
FOREIGN KEY (habit_id) REFERENCES habits(id) ON DELETE CASCADE`. -/
structure Completion where
  id : Int
  habit_id : Int
  completion_date : Timestamp
deriving DecidableEq, Repr

/-- The database state: the two tables in row order, plus the next value of
each `AUTOINCREMENT` id column. -/
structure DB where
  habits : List Habit
  completions : List Completion
  nextHabitId : Int
  nextCompletionId : Int
deriving DecidableEq, Repr

/-- The freshly created schema: both tables empty, `AUTOINCREMENT` counters
starting at 1 (SQLite assigns 1 to the first inserted row). -/
def DB.empty : DB := ⟨[], [], 1, 1⟩

/-- The messages the operations return.  In the source they are format
strings; here each distinct format string is one constructor carrying the
interpolated values. -/
inductive Msg where
  | habitAdded (name : String)
  | habitCompleted (habit_id : Int)
  | habitDoesNotExist (habit_id : Int)
  | habitDeleted (habit_id : Int)
deriving DecidableEq, Repr

/-- `add_habit(name, description="")`: inserts a new `habits` row (fresh id,
`created_at` defaulting to the current clock `now`, `is_active` defaulting
to true) and returns the confirmation message.  The source performs no
validation of `name`. -/
def add_habit (db : DB) (name : String) (description : String) (now : Timestamp) :
    DB × Msg :=
  ({ habits := db.habits ++ [⟨db.nextHabitId, name, description, now, true⟩],
     completions := db.completions,
     nextHabitId := db.nextHabitId + 1,
     nextCompletionId := db.nextCompletionId },
   Msg.habitAdded name)

/-- `list_habits()`: `SELECT id, name, description, created_at, is_active
FROM habits` — returns every row and leaves the state unchanged. -/
def list_habits (db : DB) : DB × List Habit :=
  (db, db.habits)

/-- `complete_habit(habit_id)`: `SELECT 1 FROM habits WHERE id = ?`; if no
row matches, returns the non-existence message without inserting; otherwise
inserts a `habit_completions` row whose `completion_date` defaults to the
current clock `now`, and returns the confirmation message. -/
def complete_habit (db : DB) (habit_id : Int) (now : Timestamp) : DB × Msg :=
  if db.habits.any (fun h => h.id = habit_id) then
    ({ habits := db.habits,
       completions := db.completions ++ [(⟨db.nextCompletionId, habit_id, now⟩ : Completion)],
       nextHabitId := db.nextHabitId,
       nextCompletionId := db.nextCompletionId + 1 },
     Msg.habitCompleted habit_id)
  else
    (db, Msg.habitDoesNotExist habit_id)

/-- `delete_habit(habit_id)`: `DELETE FROM habits WHERE id = ?` with
`PRAGMA foreign_keys = ON`, so the store cascades the delete to every
`habit_completions` row referencing the habit (`ON DELETE CASCADE`).
Returns the confirmation message whether or not a row matched. -/
def delete_habit (db : DB) (habit_id : Int) : DB × Msg :=
  ({ habits := db.habits.filter (fun h => h.id ≠ habit_id),
     completions := db.completions.filter (fun c => c.habit_id ≠ habit_id),
     nextHabitId := db.nextHabitId,
     nextCompletionId := db.nextCompletionId },
   Msg.habitDeleted habit_id)

/-- `list_completions()`: joins `habit_completions` with `habits` on
`hc.habit_id = h.id`, returning `(hc.id, h.name, hc.completion_date)` rows
ordered by `completion_date` descending; the state is unchanged. -/
def list_completions (db : DB) : DB × List (Int × String × Timestamp) :=
  (db,
   (db.completions.filterMap (fun c =>
      (db.habits.find? (fun h => h.id = c.habit_id)).map
        (fun h => (c.id, h.name, c.completion_date)))).mergeSort
     (fun a b => b.2.2.day < a.2.2.day ∨ (b.2.2.day = a.2.2.day ∧ b.2.2.tod ≤ a.2.2.tod)))

/-- The rows of `SELECT DISTINCT DATE(completion_date) ... WHERE habit_id = ?`,
collected — as the source does with a Python set comprehension — into the set
of distinct calendar days on which the habit has at least one completion. -/
def completionDays (db : DB) (habit_id : Int) : Finset Int :=
  ((db.completions.filter (fun c => c.habit_id = habit_id)).map
    (fun c => c.completion_date.day)).toFinset

/-- The backward walk of `get_current_streak`: starting at `today`, count
consecutive days present in `days`, stopping at the first absent day.  The
source's `while True` loop carries no bound; `fuel` makes the recursion
structural, and `streakAux_fuel_irrelevant` below shows any fuel above
`days.card` computes the loop's value. -/
def streakAux (days : Finset Int) (today : Int) : Nat → Nat
  | 0 => 0
  | fuel + 1 => if today ∈ days then streakAux days (today - 1) fuel + 1 else 0

/-- `get_current_streak(habit_id)`: fetches the distinct completion days of
the habit; if there are none (`if not rows`) returns 0, otherwise walks
backward from `today` (the process-local `date.today()`) counting
consecutive present days.  No habit-existence check is performed. -/
def get_current_streak (db : DB) (habit_id : Int) (today : Int) : DB × Nat :=
  if (db.completions.filter (fun c => c.habit_id = habit_id)).isEmpty then (db, 0)
  else
    (db, streakAux (completionDays db habit_id) today ((completionDays db habit_id).card + 1))

example : (get_current_streak DB.empty 1 7).2 = 0 := by decide

example :
    (get_current_streak ⟨[⟨1, "a", "", ⟨5, 0⟩, true⟩], [⟨1, 1, ⟨5, 10⟩⟩, ⟨2, 1, ⟨4, 3⟩⟩, ⟨3, 1, ⟨2, 0⟩⟩], 2, 4⟩ 1 5).2 = 2 := by
  decide

example :
    (get_current_streak ⟨[], [⟨1, 1, ⟨5, 10⟩⟩, ⟨2, 1, ⟨4, 3⟩⟩], 1, 3⟩ 1 6).2 = 0 := by
  decide

/-! ### The streak walk: characterization -/

/-- A run of consecutive days all lying in a finite set is no longer than
the set's cardinality. -/
lemma run_le_card (days : Finset Int) (today : Int) (m : Nat)
    (h : ∀ k < m, (today - k) ∈ days) : m ≤ days.card := by
  have hinj : Function.Injective (fun k : Nat => today - (k : Int)) := by
    intro a b hab
    simp only at hab
    omega
  calc m = ((Finset.range m).image (fun k : Nat => today - (k : Int))).card := by
        rw [Finset.card_image_of_injective _ hinj, Finset.card_range]
    _ ≤ days.card := by
        apply Finset.card_le_card
        intro x hx
        simp only [Finset.mem_image, Finset.mem_range] at hx
        obtain ⟨k, hk, rfl⟩ := hx
        exact h k hk

/-- Every day the walk counted is present in the set. -/
lemma streakAux_mem (days : Finset Int) :
    ∀ (fuel : Nat) (today : Int) (k : Nat), k < streakAux days today fuel →
      (today - k) ∈ days := by
  intro fuel
  induction fuel with
  | zero => intro today k hk; simp [streakAux] at hk
  | succ n ih =>
    intro today k hk
    rw [streakAux] at hk
    by_cases hm : today ∈ days
    · rw [if_pos hm] at hk
      cases k with
      | zero => simpa using hm
      | succ j =>
        have hcast : today - ((j + 1 : Nat) : Int) = (today - 1) - (j : Int) := by
          push_cast; ring
        rw [hcast]
        exact ih (today - 1) j (by omega)
    · rw [if_neg hm] at hk
      omega

/-- If the walk stopped before running out of fuel, the day right after the
counted run is absent from the set. -/
lemma streakAux_stop (days : Finset Int) :
    ∀ (fuel : Nat) (today : Int), streakAux days today fuel < fuel →
      (today - streakAux days today fuel) ∉ days := by
  intro fuel
  induction fuel with
  | zero => intro today h; omega
  | succ n ih =>
    intro today h
    rw [streakAux] at h ⊢
    by_cases hm : today ∈ days
    · rw [if_pos hm] at h ⊢
      have hcast : today - ((streakAux days (today - 1) n + 1 : Nat) : Int)
          = (today - 1) - (streakAux days (today - 1) n : Int) := by
        push_cast; ring
      rw [hcast]
      exact ih (today - 1) (by omega)
    · rw [if_neg hm] at h ⊢
      simpa using hm

/-- The walk's count never exceeds the number of distinct completion days. -/
lemma streakAux_le_card (days : Finset Int) (today : Int) (fuel : Nat) :
    streakAux days today fuel ≤ days.card :=
  run_le_card days today _ (fun k hk => streakAux_mem days fuel today k hk)

/-- For every finite set of days there is a backward offset at which the day
is absent, so the source's `while True` walk always terminates. -/
lemma exists_absent (days : Finset Int) (today : Int) :
    ∃ n : Nat, (today - n) ∉ days := by
  by_contra h
  push_neg at h
  have := run_le_card days today (days.card + 1) (fun k _ => h k)
  omega

/-- The streak as §4.3 of the specification words it: the number of
consecutive calendar days, starting at `today` and walking backward, present
in the set — equivalently the first backward offset whose day is absent. -/
def specStreak (days : Finset Int) (today : Int) : Nat :=
  Nat.find (exists_absent days today)

/-- With fuel exceeding the set's cardinality, the fueled walk computes
exactly the specification's streak. -/
lemma streakAux_eq_specStreak (days : Finset Int) (today : Int) (fuel : Nat)
    (h : days.card < fuel) : streakAux days today fuel = specStreak days today := by
  rw [specStreak, eq_comm, Nat.find_eq_iff]
  constructor
  · exact streakAux_stop days fuel today (lt_of_le_of_lt (streakAux_le_card days today fuel) h)
  · intro k hk
    exact not_not_intro (streakAux_mem days fuel today k hk)

/-- Any fuel above the set's cardinality computes the same value: the fuel
is a proof artifact, not part of the loop's semantics. -/
lemma streakAux_fuel_irrelevant (days : Finset Int) (today : Int) (fuel : Nat)
    (h : days.card < fuel) :
    streakAux days today fuel = streakAux days today (days.card + 1) := by
  rw [streakAux_eq_specStreak days today fuel h,
    streakAux_eq_specStreak days today (days.card + 1) (Nat.lt_succ_self _)]

/-! ### Streak correctness (C1, C2) -/

/-- `get_current_streak` computes the specification's streak: the first
backward offset from `today` whose day has no completion. -/
lemma get_current_streak_snd_eq (db : DB) (habit_id today : Int) :
    (get_current_streak db habit_id today).2
      = specStreak (completionDays db habit_id) today := by
  rw [get_current_streak]
  by_cases h : (db.completions.filter (fun c => c.habit_id = habit_id)).isEmpty
  · rw [if_pos h]
    have hnil : db.completions.filter (fun c => c.habit_id = habit_id) = [] := by
      simpa [List.isEmpty_iff] using h
    have hdays : completionDays db habit_id = ∅ := by
      rw [completionDays, hnil]; rfl
    rw [hdays, specStreak, eq_comm, Nat.find_eq_zero]
    simp
  · rw [if_neg h]
    exact streakAux_eq_specStreak _ _ _ (Nat.lt_succ_self _)

/-- A habit with no stored completions has streak 0 regardless of the
`habits` table, the counters or the date. -/
lemma get_current_streak_zero (db : DB) (habit_id today : Int)
    (h : ∀ c ∈ db.completions, c.habit_id ≠ habit_id) :
    (get_current_streak db habit_id today).2 = 0 := by
  have hnil : db.completions.filter (fun c => c.habit_id = habit_id) = [] := by
    simp only [List.filter_eq_nil_iff, decide_eq_true_eq]
    exact h
  simp [get_current_streak, hnil]

/-- C1: for every habit and every set of stored completions,
`get_current_streak` returns the number of consecutive calendar days counted
backward from `today` whose day is in the habit's set of distinct completion
days, stopping at the first absent day (`specStreak`); in particular, if
today is not in the set the result is 0 even when yesterday is. -/
theorem get_current_streak_correct (db : DB) (habit_id today : Int) :
    (get_current_streak db habit_id today).2
        = specStreak (completionDays db habit_id) today ∧
    (today ∉ completionDays db habit_id → (get_current_streak db habit_id today).2 = 0) := by
  refine ⟨get_current_streak_snd_eq db habit_id today, fun habs => ?_⟩
  rw [get_current_streak_snd_eq db habit_id today, specStreak, Nat.find_eq_zero]
  simpa using habs

/-- Witness for C1: completions yesterday (day 5) and three days ago, none
today (day 6); the streak is 0 even though yesterday has a completion. -/
theorem get_current_streak_correct_witness :
    (6 : Int) ∉ completionDays ⟨[⟨1, "a", "", ⟨3, 0⟩, true⟩],
        [⟨1, 1, ⟨5, 7⟩⟩, ⟨2, 1, ⟨3, 0⟩⟩], 2, 3⟩ 1 ∧
    (get_current_streak ⟨[⟨1, "a", "", ⟨3, 0⟩, true⟩],
        [⟨1, 1, ⟨5, 7⟩⟩, ⟨2, 1, ⟨3, 0⟩⟩], 2, 3⟩ 1 6).2 = 0 :=
  ⟨by decide,
   (get_current_streak_correct ⟨[⟨1, "a", "", ⟨3, 0⟩, true⟩],
      [⟨1, 1, ⟨5, 7⟩⟩, ⟨2, 1, ⟨3, 0⟩⟩], 2, 3⟩ 1 6).2 (by decide)⟩

/-- C2: a habit id with no stored completions — in particular one that does
not reference any existing habit — yields streak 0; the result does not
consult the `habits` table at all, so no existence validation occurs. -/
theorem get_current_streak_no_completions (db : DB) (habit_id today : Int)
    (h : ∀ c ∈ db.completions, c.habit_id ≠ habit_id) :
    (get_current_streak db habit_id today).2 = 0 ∧
    ∀ (hs : List Habit) (nh nc : Int),
      (get_current_streak ⟨hs, db.completions, nh, nc⟩ habit_id today).2 = 0 :=
  ⟨get_current_streak_zero db habit_id today h,
   fun hs nh nc => get_current_streak_zero ⟨hs, db.completions, nh, nc⟩ habit_id today h⟩

/-- Witness for C2: habit id 2 exists in no table row; its streak is 0 even
though the database holds a habit and a completion for habit 1. -/
theorem get_current_streak_no_completions_witness :
    (get_current_streak ⟨[⟨1, "a", "", ⟨0, 0⟩, true⟩], [⟨1, 1, ⟨5, 0⟩⟩], 2, 2⟩ 2 5).2 = 0 :=
  (get_current_streak_no_completions ⟨[⟨1, "a", "", ⟨0, 0⟩, true⟩],
    [⟨1, 1, ⟨5, 0⟩⟩], 2, 2⟩ 2 5 (by decide)).1

/-! ### Read-only operations (C10) -/

/-- C10: `get_current_streak`, `list_habits` and `list_completions` only run
`SELECT` statements: for every input and every starting state they return
the stored habits and completions exactly unchanged. -/
theorem read_ops_leave_state_unchanged (db : DB) (habit_id today : Int) :
    (get_current_streak db habit_id today).1 = db ∧
    (list_habits db).1 = db ∧
    (list_completions db).1 = db := by
  refine ⟨?_, rfl, rfl⟩
  rw [get_current_streak]
  split <;> rfl

/-! ### Day-level idempotence (C4) -/

/-- Appending a completion for the habit adds its calendar day to the
habit's set of distinct completion days. -/
lemma completionDays_append (db : DB) (habit_id cid : Int) (now : Timestamp) :
    (((db.completions ++ [(⟨cid, habit_id, now⟩ : Completion)]).filter
        (fun c => c.habit_id = habit_id)).map (fun c => c.completion_date.day)).toFinset
      = insert now.day (completionDays db habit_id) := by
  rw [completionDays]
  simp [List.filter_append, List.toFinset_append, Finset.union_comm,
    Finset.insert_eq]

/-- C4: the count of completions on a day is irrelevant beyond presence —
recording one more completion (via `complete_habit`) on a calendar date the
habit already has leaves `get_current_streak` unchanged. -/
theorem streak_unchanged_by_duplicate_day (db : DB) (habit_id today : Int)
    (now : Timestamp) (hmem : now.day ∈ completionDays db habit_id) :
    (get_current_streak (complete_habit db habit_id now).1 habit_id today).2
      = (get_current_streak db habit_id today).2 := by
  rw [complete_habit]
  by_cases hex : db.habits.any (fun h => h.id = habit_id)
  · rw [if_pos hex]
    rw [get_current_streak_snd_eq, get_current_streak_snd_eq]
    have hdays :
        completionDays ⟨db.habits, db.completions ++ [(⟨db.nextCompletionId, habit_id, now⟩ : Completion)],
          db.nextHabitId, db.nextCompletionId + 1⟩ habit_id
          = completionDays db habit_id := by
      rw [show completionDays ⟨db.habits,
            db.completions ++ [(⟨db.nextCompletionId, habit_id, now⟩ : Completion)],
            db.nextHabitId, db.nextCompletionId + 1⟩ habit_id
          = (((db.completions ++ [(⟨db.nextCompletionId, habit_id, now⟩ : Completion)]).filter
              (fun c => c.habit_id = habit_id)).map
              (fun c => c.completion_date.day)).toFinset from rfl,
        completionDays_append]
      exact Finset.insert_eq_self.mpr hmem
    rw [hdays]
  · rw [if_neg hex]

/-- Witness for C4: habit 1 already has a completion on day 5; completing it
again at another time of the same day leaves the streak at 1. -/
theorem streak_unchanged_by_duplicate_day_witness :
    (get_current_streak
        (complete_habit ⟨[⟨1, "a", "", ⟨0, 0⟩, true⟩], [⟨1, 1, ⟨5, 3⟩⟩], 2, 2⟩ 1 ⟨5, 99⟩).1
        1 5).2
      = (get_current_streak ⟨[⟨1, "a", "", ⟨0, 0⟩, true⟩], [⟨1, 1, ⟨5, 3⟩⟩], 2, 2⟩ 1 5).2 :=
  streak_unchanged_by_duplicate_day ⟨[⟨1, "a", "", ⟨0, 0⟩, true⟩], [⟨1, 1, ⟨5, 3⟩⟩], 2, 2⟩
    1 5 ⟨5, 99⟩ (by decide)

/-! ### Reachable database states -/

/-- The states reachable from the freshly created schema through the
mutating operations (for any arguments and any clock readings). -/
inductive Reachable : DB → Prop where
  | init : Reachable DB.empty
  | add (db : DB) (name description : String) (now : Timestamp) :
      Reachable db → Reachable (add_habit db name description now).1
  | complete (db : DB) (habit_id : Int) (now : Timestamp) :
      Reachable db → Reachable (complete_habit db habit_id now).1
  | delete (db : DB) (habit_id : Int) :
      Reachable db → Reachable (delete_habit db habit_id).1

/-! ### Existence check of complete_habit (C3) -/

/-- C3: on a habit id matching no `habits` row, `complete_habit` returns
the non-existence message and leaves the state exactly unchanged; on an
existing id it inserts exactly one completion row (for that habit, dated
`now`) and returns the confirmation message. -/
theorem complete_habit_checks_existence (db : DB) (habit_id : Int) (now : Timestamp) :
    ((∀ h ∈ db.habits, h.id ≠ habit_id) →
        complete_habit db habit_id now = (db, Msg.habitDoesNotExist habit_id)) ∧
    ((∃ h ∈ db.habits, h.id = habit_id) →
        (complete_habit db habit_id now).1.habits = db.habits ∧
        (complete_habit db habit_id now).1.completions
          = db.completions ++ [(⟨db.nextCompletionId, habit_id, now⟩ : Completion)] ∧
        (complete_habit db habit_id now).2 = Msg.habitCompleted habit_id) := by
  constructor
  · intro hnone
    have hany : ¬ (db.habits.any (fun h => h.id = habit_id) = true) := by
      simp only [List.any_eq_true, decide_eq_true_eq, not_exists, not_and]
      exact hnone
    rw [complete_habit, if_neg hany]
  · rintro ⟨h0, hmem, hid0⟩
    have hany : db.habits.any (fun h => h.id = habit_id) = true :=
      List.any_eq_true.mpr ⟨h0, hmem, by simpa using hid0⟩
    rw [complete_habit, if_pos hany]
    exact ⟨rfl, rfl, rfl⟩

/-- Witness for C3: on the empty database, completing habit 1 is rejected
without a state change; after adding a habit (id 1), completing it appends
exactly one completion row. -/
theorem complete_habit_checks_existence_witness :
    complete_habit DB.empty 1 ⟨0, 0⟩ = (DB.empty, Msg.habitDoesNotExist 1) ∧
    (complete_habit (add_habit DB.empty "Exercise" "" ⟨0, 0⟩).1 1 ⟨0, 5⟩).1.completions
      = (add_habit DB.empty "Exercise" "" ⟨0, 0⟩).1.completions
        ++ [(⟨1, 1, ⟨0, 5⟩⟩ : Completion)] :=
  ⟨(complete_habit_checks_existence DB.empty 1 ⟨0, 0⟩).1 (by decide),
   ((complete_habit_checks_existence (add_habit DB.empty "Exercise" "" ⟨0, 0⟩).1 1
      ⟨0, 5⟩).2 (by decide)).2.1⟩

/-! ### Names of stored habits (C5) -/

/-- Counterexample to C5: `add_habit` performs no non-emptiness check on the
name, so a state holding a habit whose name is the empty string is reachable. -/
theorem empty_name_reachable :
    Reachable (add_habit DB.empty "" "" ⟨0, 0⟩).1 ∧
    ∃ h ∈ (add_habit DB.empty "" "" ⟨0, 0⟩).1.habits, h.name = "" :=
  ⟨Reachable.add DB.empty "" "" ⟨0, 0⟩ Reachable.init, by decide⟩

/-- C5 (amended): `add_habit` requires a name argument but validates nothing
about it — it inserts a row carrying exactly the given name (empty or not)
with the fresh id, the given description, `created_at := now` and
`is_active := true`, and returns the confirmation naming the habit. -/
theorem add_habit_inserts_given_name (db : DB) (name description : String)
    (now : Timestamp) :
    (add_habit db name description now).1.habits
      = db.habits ++ [(⟨db.nextHabitId, name, description, now, true⟩ : Habit)] ∧
    (add_habit db name description now).1.completions = db.completions ∧
    (add_habit db name description now).2 = Msg.habitAdded name :=
  ⟨rfl, rfl, rfl⟩

/-! ### Referential integrity (C6) -/

/-- Every stored completion references a habit present in the `habits`
table. -/
def ValidRefs (db : DB) : Prop :=
  ∀ c ∈ db.completions, ∃ h ∈ db.habits, h.id = c.habit_id

/-- The mutating operations preserve `ValidRefs`; with cascade deletion the
invariant holds not only at completion-creation time but at every reachable
state. -/
lemma reachable_validRefs (db : DB) (hreach : Reachable db) : ValidRefs db := by
  induction hreach with
  | init => intro c hc; cases hc
  | add db name description now _ ih =>
    intro c hc
    obtain ⟨h, hh, hid⟩ := ih c hc
    exact ⟨h, List.mem_append_left _ hh, hid⟩
  | complete db habit_id now _ ih =>
    rw [complete_habit]
    by_cases hany : db.habits.any (fun h => h.id = habit_id) = true
    · rw [if_pos hany]
      intro c hc
      rcases List.mem_append.mp hc with hold | hnew
      · exact ih c hold
      · obtain ⟨h, hh, hid⟩ := List.any_eq_true.mp hany
        rw [List.mem_singleton.mp hnew]
        exact ⟨h, hh, by simpa using hid⟩
    · rw [if_neg hany]
      exact ih
  | delete db habit_id _ ih =>
    intro c hc
    rw [delete_habit] at hc
    have hc' := List.mem_filter.mp hc
    obtain ⟨h, hh, hid⟩ := ih c hc'.1
    refine ⟨h, List.mem_filter.mpr ⟨hh, ?_⟩, hid⟩
    have : c.habit_id ≠ habit_id := by simpa using hc'.2
    simp only [decide_eq_true_eq]
    omega

/-- C6: in every reachable state every completion references an existing
habit; `delete_habit` cascades, leaving no completion of the deleted habit;
and every row `list_completions` returns is the join image of a stored
completion with a currently existing habit — never a deleted one. -/
theorem completions_reference_existing_habits (db : DB) (hreach : Reachable db) :
    ValidRefs db ∧
    (∀ habit_id : Int, ∀ c ∈ (delete_habit db habit_id).1.completions,
        c.habit_id ≠ habit_id) ∧
    (∀ r ∈ (list_completions db).2, ∃ c ∈ db.completions, ∃ h ∈ db.habits,
        h.id = c.habit_id ∧ r = (c.id, h.name, c.completion_date)) := by
  refine ⟨reachable_validRefs db hreach, ?_, ?_⟩
  · intro habit_id c hc
    have hc' := List.mem_filter.mp hc
    simpa using hc'.2
  · intro r hr
    rw [list_completions] at hr
    have hr' : r ∈ db.completions.filterMap (fun c =>
        (db.habits.find? (fun h => h.id = c.habit_id)).map
          (fun h => (c.id, h.name, c.completion_date))) := by
      rw [List.mem_mergeSort] at hr
      exact hr
    obtain ⟨c, hc, hfc⟩ := List.mem_filterMap.mp hr'
    obtain ⟨h, hfind, hmap⟩ := Option.map_eq_some'.mp hfc
    refine ⟨c, hc, h, List.mem_of_find?_eq_some hfind, ?_, hmap.symm⟩
    have := List.find?_some hfind
    simpa using this

/-! ### Termination of the streak walk (C7) -/

/-- The day right past the computed streak is absent — the walk's stopping
condition. -/
lemma specStreak_spec (days : Finset Int) (today : Int) :
    (today - (specStreak days today : Int)) ∉ days :=
  Nat.find_spec (exists_absent days today)

/-- Every backward offset below the computed streak hits a present day. -/
lemma specStreak_min (days : Finset Int) (today : Int) (k : Nat)
    (hk : k < specStreak days today) : (today - (k : Int)) ∈ days := by
  unfold specStreak at hk
  exact not_not.mp (Nat.find_min (exists_absent days today) hk)

/-- Counterexample to C7's iteration bound: with a single completion on
day 5 and today = day 5, `today − earliest = 0`, yet no missing day occurs
within the first 0 backward offsets — the walk must look one day further
(the streak is 1, the missing day sits at offset 1 = today − earliest + 1). -/
theorem streak_walk_bound_cex :
    completionDays ⟨[⟨1, "a", "", ⟨0, 0⟩, true⟩], [⟨1, 1, ⟨5, 0⟩⟩], 2, 2⟩ 1 = {5} ∧
    (get_current_streak ⟨[⟨1, "a", "", ⟨0, 0⟩, true⟩], [⟨1, 1, ⟨5, 0⟩⟩], 2, 2⟩ 1 5).2 = 1 ∧
    ¬ ∃ n : Nat, (n : Int) ≤ (5 : Int) - 5 ∧
        (5 - (n : Int)) ∉ completionDays ⟨[⟨1, "a", "", ⟨0, 0⟩, true⟩],
          [⟨1, 1, ⟨5, 0⟩⟩], 2, 2⟩ 1 := by
  refine ⟨by decide, by decide, ?_⟩
  rintro ⟨n, hle, hmem⟩
  have hn : n = 0 := by omega
  subst hn
  exact hmem (by decide)

/-- C7 (amended): for a habit with at least one completion the backward walk
reaches a missing day after at most `today − earliest + 1` backward offsets
(and immediately, at offset 0, when today itself is absent): the streak
value itself is that first missing offset and obeys the bound, so the
computation is total. -/
theorem streak_walk_terminates (db : DB) (habit_id today : Int)
    (hne : (completionDays db habit_id).Nonempty) :
    (today - ((get_current_streak db habit_id today).2 : Int)) ∉ completionDays db habit_id ∧
    ((get_current_streak db habit_id today).2 : Int)
      ≤ max 0 (today - (completionDays db habit_id).min' hne + 1) := by
  rw [get_current_streak_snd_eq]
  refine ⟨specStreak_spec _ _, ?_⟩
  rcases hs : specStreak (completionDays db habit_id) today with _ | j
  · simp only [Nat.cast_zero]
    exact le_sup_left
  · have hmem := specStreak_min (completionDays db habit_id) today j (by omega)
    have hmin := Finset.min'_le (completionDays db habit_id) _ hmem
    refine le_sup_of_le_right ?_
    push_cast
    omega

/-- Witness for C7's amended bound: one completion on day 5, today = 5;
the missing day is at offset 1 ≤ max 0 (5 − 5 + 1). -/
theorem streak_walk_terminates_witness :
    ((5 : Int) - ((get_current_streak ⟨[⟨1, "a", "", ⟨0, 0⟩, true⟩],
        [⟨1, 1, ⟨5, 0⟩⟩], 2, 2⟩ 1 5).2 : Int))
      ∉ completionDays ⟨[⟨1, "a", "", ⟨0, 0⟩, true⟩], [⟨1, 1, ⟨5, 0⟩⟩], 2, 2⟩ 1 ∧
    (((get_current_streak ⟨[⟨1, "a", "", ⟨0, 0⟩, true⟩],
        [⟨1, 1, ⟨5, 0⟩⟩], 2, 2⟩ 1 5).2 : Int))
      ≤ max 0 ((5 : Int) - (completionDays ⟨[⟨1, "a", "", ⟨0, 0⟩, true⟩],
          [⟨1, 1, ⟨5, 0⟩⟩], 2, 2⟩ 1).min' (by decide) + 1) :=
  streak_walk_terminates ⟨[⟨1, "a", "", ⟨0, 0⟩, true⟩], [⟨1, 1, ⟨5, 0⟩⟩], 2, 2⟩ 1 5 (by decide)

/-! ### The initialization guard, sequential failure semantics (C9) -/

/-- The state change of one call to `ensure_db_initialized` (src/main.py
lines 29–36) run in isolation, with the outcome of the awaited `init_db()`
made explicit: given the current ready flag and the result schema creation
would produce, return the new flag and the call's outcome.  If the flag is
set the call returns at once; otherwise `init_db()` runs — on success the
flag is set, on failure the flag assignment is never reached and the error
propagates.  (The lock acquisition and the second flag check guard
concurrent interleavings and collapse in this sequential view; they are
modelled in the `GuardStep` system below.) -/
def ensureReady (E : Type) (flag : Bool) (initResult : Except E Unit) :
    Bool × Except E Unit :=
  if flag then (flag, Except.ok ())
  else
    match initResult with
    | Except.ok _ => (true, Except.ok ())
    | Except.error e => (flag, Except.error e)

/-- C9: if schema creation fails, the ready flag stays unset and the error
propagates unchanged; a subsequent call (flag still false) re-attempts
initialization from scratch and succeeds if creation now succeeds; and the
flag can only ever be set by a successful creation. -/
theorem guard_failure_propagates (E : Type) (e : E) :
    ensureReady E false (Except.error e) = (false, Except.error e) ∧
    ensureReady E false (Except.ok ()) = (true, Except.ok ()) ∧
    (∀ r : Except E Unit, (ensureReady E false r).1 = true → r = Except.ok ()) := by
  refine ⟨rfl, rfl, ?_⟩
  intro r hr
  cases r with
  | ok u => rfl
  | error e' => simp [ensureReady] at hr

/-- Witness for C9 at a concrete error value. -/
theorem guard_failure_propagates_witness :
    ensureReady Unit false (Except.error ()) = (false, Except.error ()) ∧
    ensureReady Unit false (Except.ok ()) = (true, Except.ok ()) :=
  ⟨(guard_failure_propagates Unit ()).1, (guard_failure_propagates Unit ()).2.1⟩

/-! ### The initialization guard under concurrency (C8) -/

/-- Program locations of one task running `ensure_db_initialized`:
`start` — about to read the flag; `acquiring` — saw the flag unset, waiting
on the lock; `holding` — holds the lock, about to re-read the flag;
`doInit` — saw the flag still unset, about to await `init_db()`;
`didInit` — schema creation finished, about to set the flag;
`releasing` — flag set, about to release the lock; `finished` — returned. -/
inductive Loc where
  | start
  | acquiring
  | holding
  | doInit
  | didInit
  | releasing
  | finished
deriving DecidableEq, Repr

/-- Locations at which a task holds the initialization lock. -/
def Loc.holdsLock : Loc → Bool
  | .holding => true
  | .doInit => true
  | .didInit => true
  | .releasing => true
  | _ => false

/-- Shared state of `n` concurrent guard invocations: the process-wide
ready flag, the owner of the `asyncio.Lock` (if held), each task's program
location, and how many times schema creation has run. -/
structure GuardState (n : Nat) where
  flag : Bool
  lock : Option (Fin n)
  pc : Fin n → Loc
  initCount : Nat

/-- Process start: flag unset, lock free, every task at its first flag
check, schema creation not yet run. -/
def GuardState.launch (n : Nat) : GuardState n :=
  ⟨false, none, fun _ => Loc.start, 0⟩

/-- One atomic step of task `i`, interleaved arbitrarily with the other
tasks (finer-grained than asyncio's run-to-await scheduling, so every
asyncio interleaving is covered). -/
inductive GuardStep (n : Nat) (i : Fin n) : GuardState n → GuardState n → Prop where
  | fastPath (s s' : GuardState n) (h1 : s.pc i = Loc.start) (h2 : s.flag = true)
      (h3 : s' = ⟨s.flag, s.lock, Function.update s.pc i Loc.finished, s.initCount⟩) :
      GuardStep n i s s'
  | slowPath (s s' : GuardState n) (h1 : s.pc i = Loc.start) (h2 : s.flag = false)
      (h3 : s' = ⟨s.flag, s.lock, Function.update s.pc i Loc.acquiring, s.initCount⟩) :
      GuardStep n i s s'
  | acquire (s s' : GuardState n) (h1 : s.pc i = Loc.acquiring) (h2 : s.lock = none)
      (h3 : s' = ⟨s.flag, some i, Function.update s.pc i Loc.holding, s.initCount⟩) :
      GuardStep n i s s'
  | recheckTrue (s s' : GuardState n) (h1 : s.pc i = Loc.holding) (h2 : s.flag = true)
      (h3 : s' = ⟨s.flag, none, Function.update s.pc i Loc.finished, s.initCount⟩) :
      GuardStep n i s s'
  | recheckFalse (s s' : GuardState n) (h1 : s.pc i = Loc.holding) (h2 : s.flag = false)
      (h3 : s' = ⟨s.flag, s.lock, Function.update s.pc i Loc.doInit, s.initCount⟩) :
      GuardStep n i s s'
  | runInit (s s' : GuardState n) (h1 : s.pc i = Loc.doInit)
      (h3 : s' = ⟨s.flag, s.lock, Function.update s.pc i Loc.didInit, s.initCount + 1⟩) :
      GuardStep n i s s'
  | setFlag (s s' : GuardState n) (h1 : s.pc i = Loc.didInit)
      (h3 : s' = ⟨true, s.lock, Function.update s.pc i Loc.releasing, s.initCount⟩) :
      GuardStep n i s s'
  | release (s s' : GuardState n) (h1 : s.pc i = Loc.releasing)
      (h3 : s' = ⟨s.flag, none, Function.update s.pc i Loc.finished, s.initCount⟩) :
      GuardStep n i s s'

/-- States reachable from process start by arbitrary interleaving. -/
inductive GuardReach (n : Nat) : GuardState n → Prop where
  | launch : GuardReach n (GuardState.launch n)
  | step (s s' : GuardState n) (i : Fin n) :
      GuardReach n s → GuardStep n i s s' → GuardReach n s'

/-- The inductive invariant: (lock coherence) a task is between acquire and
release exactly when it owns the lock; (pre-init) a task about to run or
just done running schema creation can only exist while the flag is unset;
(post-init) a task past the flag assignment — or finished — implies the
flag is set; (count) schema creation has run exactly once if the flag is
set or a task sits between creation and the flag assignment, and never
otherwise. -/
def GuardInv (n : Nat) (s : GuardState n) : Prop :=
  (∀ j : Fin n, (s.pc j).holdsLock = true ↔ s.lock = some j) ∧
  (∀ j : Fin n, (s.pc j = Loc.doInit ∨ s.pc j = Loc.didInit) → s.flag = false) ∧
  (∀ j : Fin n, (s.pc j = Loc.releasing ∨ s.pc j = Loc.finished) → s.flag = true) ∧
  (s.initCount = if s.flag = true then 1
    else if ∃ j : Fin n, s.pc j = Loc.didInit then 1 else 0)

lemma guardInv_launch (n : Nat) : GuardInv n (GuardState.launch n) := by
  refine ⟨?_, ?_, ?_, ?_⟩ <;> simp [GuardState.launch, Loc.holdsLock]

/-- An update that neither writes `w` nor overwrites a task sitting at `w`
leaves "some task is at `w`" unchanged. -/
lemma exists_pc_update (n : Nat) (pc : Fin n → Loc) (i : Fin n) (v w : Loc)
    (hv : v ≠ w) (hi : pc i ≠ w) :
    (∃ j : Fin n, Function.update pc i v j = w) ↔ (∃ j : Fin n, pc j = w) := by
  constructor
  · rintro ⟨j, hj⟩
    by_cases hji : j = i
    · subst hji; rw [Function.update_same] at hj; exact absurd hj hv
    · rw [Function.update_noteq hji] at hj; exact ⟨j, hj⟩
  · rintro ⟨j, hj⟩
    refine ⟨j, ?_⟩
    by_cases hji : j = i
    · subst hji; exact absurd hj hi
    · rw [Function.update_noteq hji]; exact hj

lemma guardInv_step (n : Nat) (i : Fin n) (s s' : GuardState n)
    (hinv : GuardInv n s) (hstep : GuardStep n i s s') : GuardInv n s' := by
  obtain ⟨L, F, M, C⟩ := hinv
  cases hstep with
  | fastPath h1 h2 h3 =>
    subst h3
    dsimp only [GuardInv]
    refine ⟨?_, ?_, ?_, ?_⟩
    · intro j
      rcases eq_or_ne j i with rfl | hji
      · rw [Function.update_same]
        constructor
        · intro h; exact absurd h (by decide)
        · intro h
          have hl := (L j).mpr h
          rw [h1] at hl
          exact absurd hl (by decide)
      · rw [Function.update_noteq hji]; exact L j
    · intro j hj
      rcases eq_or_ne j i with rfl | hji
      · rw [Function.update_same] at hj
        rcases hj with h | h <;> exact absurd h (by decide)
      · rw [Function.update_noteq hji] at hj
        exact F j hj
    · intro j hj
      exact h2
    · rw [C, if_pos h2, if_pos h2]
  | slowPath h1 h2 h3 =>
    subst h3
    dsimp only [GuardInv]
    refine ⟨?_, ?_, ?_, ?_⟩
    · intro j
      rcases eq_or_ne j i with rfl | hji
      · rw [Function.update_same]
        constructor
        · intro h; exact absurd h (by decide)
        · intro h
          have hl := (L j).mpr h
          rw [h1] at hl
          exact absurd hl (by decide)
      · rw [Function.update_noteq hji]; exact L j
    · intro j hj
      exact h2
    · intro j hj
      rcases eq_or_ne j i with rfl | hji
      · rw [Function.update_same] at hj
        rcases hj with h | h <;> exact absurd h (by decide)
      · rw [Function.update_noteq hji] at hj
        exact M j hj
    · rw [C]
      simp only [exists_pc_update n s.pc i Loc.acquiring Loc.didInit (by decide)
        (by rw [h1]; decide)]
  | acquire h1 h2 h3 =>
    subst h3
    dsimp only [GuardInv]
    refine ⟨?_, ?_, ?_, ?_⟩
    · intro j
      rcases eq_or_ne j i with rfl | hji
      · rw [Function.update_same]
        simp [Loc.holdsLock]
      · rw [Function.update_noteq hji]
        constructor
        · intro h
          have hl := (L j).mp h
          rw [h2] at hl
          exact absurd hl (by simp)
        · intro h
          exact absurd (Option.some.inj h).symm hji
    · intro j hj
      rcases eq_or_ne j i with rfl | hji
      · rw [Function.update_same] at hj
        rcases hj with h | h <;> exact absurd h (by decide)
      · rw [Function.update_noteq hji] at hj
        exact F j hj
    · intro j hj
      rcases eq_or_ne j i with rfl | hji
      · rw [Function.update_same] at hj
        rcases hj with h | h <;> exact absurd h (by decide)
      · rw [Function.update_noteq hji] at hj
        exact M j hj
    · rw [C]
      simp only [exists_pc_update n s.pc i Loc.holding Loc.didInit (by decide)
        (by rw [h1]; decide)]
  | recheckTrue h1 h2 h3 =>
    subst h3
    dsimp only [GuardInv]
    refine ⟨?_, ?_, ?_, ?_⟩
    · intro j
      rcases eq_or_ne j i with rfl | hji
      · rw [Function.update_same]
        constructor
        · intro h; exact absurd h (by decide)
        · intro h; exact absurd h (by simp)
      · rw [Function.update_noteq hji]
        constructor
        · intro h
          have hil := (L i).mp (by rw [h1]; rfl)
          have hjl := (L j).mp h
          rw [hil] at hjl
          exact absurd (Option.some.inj hjl).symm hji
        · intro h; exact absurd h (by simp)
    · intro j hj
      rcases eq_or_ne j i with rfl | hji
      · rw [Function.update_same] at hj
        rcases hj with h | h <;> exact absurd h (by decide)
      · rw [Function.update_noteq hji] at hj
        exact F j hj
    · intro j hj
      exact h2
    · have hc : s.initCount = 1 := by rw [C, if_pos h2]
      rw [hc, if_pos h2]
  | recheckFalse h1 h2 h3 =>
    subst h3
    dsimp only [GuardInv]
    refine ⟨?_, ?_, ?_, ?_⟩
    · intro j
      rcases eq_or_ne j i with rfl | hji
      · rw [Function.update_same]
        have hl := (L j).mp (by rw [h1]; rfl)
        rw [hl]
        simp [Loc.holdsLock]
      · rw [Function.update_noteq hji]; exact L j
    · intro j hj
      exact h2
    · intro j hj
      rcases eq_or_ne j i with rfl | hji
      · rw [Function.update_same] at hj
        rcases hj with h | h <;> exact absurd h (by decide)
      · rw [Function.update_noteq hji] at hj
        exact M j hj
    · rw [C]
      simp only [exists_pc_update n s.pc i Loc.doInit Loc.didInit (by decide)
        (by rw [h1]; decide)]
  | runInit h1 h3 =>
    subst h3
    have hflag : s.flag = false := F i (Or.inl h1)
    dsimp only [GuardInv]
    refine ⟨?_, ?_, ?_, ?_⟩
    · intro j
      rcases eq_or_ne j i with rfl | hji
      · rw [Function.update_same]
        have hl := (L j).mp (by rw [h1]; rfl)
        rw [hl]
        simp [Loc.holdsLock]
      · rw [Function.update_noteq hji]; exact L j
    · intro j hj
      exact hflag
    · intro j hj
      rcases eq_or_ne j i with rfl | hji
      · rw [Function.update_same] at hj
        rcases hj with h | h <;> exact absurd h (by decide)
      · rw [Function.update_noteq hji] at hj
        exact M j hj
    · have hnone : ¬ ∃ j : Fin n, s.pc j = Loc.didInit := by
        rintro ⟨j, hj⟩
        have hil := (L i).mp (by rw [h1]; rfl)
        have hjl := (L j).mp (by rw [hj]; rfl)
        rw [hil] at hjl
        have hij : i = j := Option.some.inj hjl
        rw [← hij, h1] at hj
        exact absurd hj (by decide)
      have hcount : s.initCount = 0 := by
        rw [C, if_neg (by simp [hflag]), if_neg hnone]
      have hex : ∃ j : Fin n, Function.update s.pc i Loc.didInit j = Loc.didInit :=
        ⟨i, by simp⟩
      rw [hcount, if_neg (by simp [hflag]), if_pos hex]
  | setFlag h1 h3 =>
    subst h3
    have hflag : s.flag = false := F i (Or.inr h1)
    dsimp only [GuardInv]
    refine ⟨?_, ?_, ?_, ?_⟩
    · intro j
      rcases eq_or_ne j i with rfl | hji
      · rw [Function.update_same]
        have hl := (L j).mp (by rw [h1]; rfl)
        rw [hl]
        simp [Loc.holdsLock]
      · rw [Function.update_noteq hji]; exact L j
    · intro j hj
      rcases eq_or_ne j i with rfl | hji
      · rw [Function.update_same] at hj
        rcases hj with h | h <;> exact absurd h (by decide)
      · rw [Function.update_noteq hji] at hj
        exfalso
        have hjl := (L j).mp (by rcases hj with h | h <;> rw [h] <;> rfl)
        have hil := (L i).mp (by rw [h1]; rfl)
        rw [hil] at hjl
        exact hji (Option.some.inj hjl).symm
    · intro j hj
      rfl
    · have hc : s.initCount = 1 := by
        rw [C, if_neg (by simp [hflag]), if_pos ⟨i, h1⟩]
      rw [hc, if_pos rfl]
  | release h1 h3 =>
    subst h3
    have hflag : s.flag = true := M i (Or.inl h1)
    dsimp only [GuardInv]
    refine ⟨?_, ?_, ?_, ?_⟩
    · intro j
      rcases eq_or_ne j i with rfl | hji
      · rw [Function.update_same]
        constructor
        · intro h; exact absurd h (by decide)
        · intro h; exact absurd h (by simp)
      · rw [Function.update_noteq hji]
        constructor
        · intro h
          have hil := (L i).mp (by rw [h1]; rfl)
          have hjl := (L j).mp h
          rw [hil] at hjl
          exact absurd (Option.some.inj hjl).symm hji
        · intro h; exact absurd h (by simp)
    · intro j hj
      rcases eq_or_ne j i with rfl | hji
      · rw [Function.update_same] at hj
        rcases hj with h | h <;> exact absurd h (by decide)
      · rw [Function.update_noteq hji] at hj
        exact F j hj
    · intro j hj
      exact hflag
    · have hc : s.initCount = 1 := by rw [C, if_pos hflag]
      rw [hc, if_pos hflag]

/-- Every reachable guard state satisfies the invariant. -/
lemma guardReach_inv (n : Nat) (s : GuardState n) (h : GuardReach n s) :
    GuardInv n s := by
  induction h with
  | launch => exact guardInv_launch n
  | step s s' i hr hstep ih => exact guardInv_step n i s s' ih hstep

/-- C8: under every interleaving of any number of concurrent guard
invocations, schema creation runs at most once; a task returns from the
guard only after the flag is set and creation has run exactly once (so no
data-accessing operation proceeds before creation completes, and if all
tasks finished it ran exactly once); and once the flag is set, the only
step available to a task entering the guard is the no-op flag check that
finishes it immediately, touching no other state. -/
theorem guard_runs_schema_creation_once (n : Nat) (s : GuardState n)
    (hreach : GuardReach n s) :
    s.initCount ≤ 1 ∧
    (∀ i : Fin n, s.pc i = Loc.finished → s.flag = true ∧ s.initCount = 1) ∧
    (∀ (i : Fin n) (s' : GuardState n), s.flag = true → s.pc i = Loc.start →
        GuardStep n i s s' →
        s' = ⟨s.flag, s.lock, Function.update s.pc i Loc.finished, s.initCount⟩) := by
  obtain ⟨L, F, M, C⟩ := guardReach_inv n s hreach
  refine ⟨?_, ?_, ?_⟩
  · rw [C]
    split_ifs <;> omega
  · intro i hfin
    have hflag := M i (Or.inr hfin)
    exact ⟨hflag, by rw [C, if_pos hflag]⟩
  · intro i s' hflag hstart hstep
    cases hstep with
    | fastPath h1 h2 h3 => exact h3
    | slowPath h1 h2 h3 => exact absurd (hflag.symm.trans h2) (by decide)
    | acquire h1 h2 h3 => rw [hstart] at h1; exact absurd h1 (by decide)
    | recheckTrue h1 h2 h3 => rw [hstart] at h1; exact absurd h1 (by decide)
    | recheckFalse h1 h2 h3 => rw [hstart] at h1; exact absurd h1 (by decide)
    | runInit h1 h3 => rw [hstart] at h1; exact absurd h1 (by decide)
    | setFlag h1 h3 => rw [hstart] at h1; exact absurd h1 (by decide)
    | release h1 h3 => rw [hstart] at h1; exact absurd h1 (by decide)

/-- On `Fin 1` every update yields a constant location map. -/
lemma update_const_fin1 (f : Fin 1 → Loc) (v : Loc) (i : Fin 1) :
    Function.update f i v = fun _ => v := by
  funext j
  have hji : j = i := Subsingleton.elim j i
  rw [hji, Function.update_same]

/-- Witness for C8: a single task runs the guard to completion — the final
state is reachable and schema creation ran exactly once. -/
theorem guard_runs_schema_creation_once_witness :
    (⟨true, none, fun _ => Loc.finished, 1⟩ : GuardState 1).initCount ≤ 1 ∧
    (⟨true, none, fun _ => Loc.finished, 1⟩ : GuardState 1).initCount = 1 := by
  have r0 : GuardReach 1 (GuardState.launch 1) := GuardReach.launch
  have r1 : GuardReach 1 ⟨false, none, fun _ => Loc.acquiring, 0⟩ :=
    GuardReach.step _ _ 0 r0
      (GuardStep.slowPath _ _ rfl rfl (by rw [update_const_fin1]; try rfl))
  have r2 : GuardReach 1 ⟨false, some 0, fun _ => Loc.holding, 0⟩ :=
    GuardReach.step _ _ 0 r1
      (GuardStep.acquire _ _ rfl rfl (by rw [update_const_fin1]; try rfl))
  have r3 : GuardReach 1 ⟨false, some 0, fun _ => Loc.doInit, 0⟩ :=
    GuardReach.step _ _ 0 r2
      (GuardStep.recheckFalse _ _ rfl rfl (by rw [update_const_fin1]; try rfl))
  have r4 : GuardReach 1 ⟨false, some 0, fun _ => Loc.didInit, 1⟩ :=
    GuardReach.step _ _ 0 r3
      (GuardStep.runInit _ _ rfl (by rw [update_const_fin1]; try rfl))
  have r5 : GuardReach 1 ⟨true, some 0, fun _ => Loc.releasing, 1⟩ :=
    GuardReach.step _ _ 0 r4
      (GuardStep.setFlag _ _ rfl (by rw [update_const_fin1]; try rfl))
  have r6 : GuardReach 1 ⟨true, none, fun _ => Loc.finished, 1⟩ :=
    GuardReach.step _ _ 0 r5
      (GuardStep.release _ _ rfl (by rw [update_const_fin1]; try rfl))
  have h := guard_runs_schema_creation_once 1 ⟨true, none, fun _ => Loc.finished, 1⟩ r6
  exact ⟨h.1, (h.2.1 0 rfl).2⟩

/-- Witness for C6: a concrete reachable state — habit "Exercise" added and
completed once — satisfies referential integrity. -/
theorem completions_reference_existing_habits_witness :
    ValidRefs (complete_habit (add_habit DB.empty "Exercise" "" ⟨0, 0⟩).1 1 ⟨0, 5⟩).1 :=
  (completions_reference_existing_habits
    (complete_habit (add_habit DB.empty "Exercise" "" ⟨0, 0⟩).1 1 ⟨0, 5⟩).1
    (Reachable.complete (add_habit DB.empty "Exercise" "" ⟨0, 0⟩).1 1 ⟨0, 5⟩
      (Reachable.add DB.empty "Exercise" "" ⟨0, 0⟩ Reachable.init))).1
